import Mathlib

/-!
Verification development for the two static-site build scripts of this
repository: `build_index.py` (index renderer) and `build_colophon.py`
(tool-history renderer).

The Python code is shallowly embedded: strings are Lean `String`s (with the
underlying `List Char` used for index arithmetic, matching Python's
code-point indexing), dictionaries with optional keys become structures with
`Option` fields, fallible code returns `Except`, and filesystem reads become
`Option` parameters (`none` models a missing file).  The Markdown-to-HTML
conversion library is out of scope for the spec and is passed as an opaque
function parameter.
-/

/-- `beginsWith pat s` is true when `pat` is an initial segment of `s`.
Models Python's `s.startswith(pat)`, used to express substring occurrence. -/
def beginsWith : List Char → List Char → Bool
  | [], _ => true
  | _ :: _, [] => false
  | a :: as, b :: bs => a == b && beginsWith as bs

/-- The pattern `pat` occurs in `s` at index `i`. -/
def matchesAtP (pat s : List Char) (i : Nat) : Prop :=
  beginsWith pat (s.drop i) = true

instance (pat s : List Char) (i : Nat) : Decidable (matchesAtP pat s i) := by
  unfold matchesAtP; infer_instance

/-- Index of the first occurrence of `pat` in `s`, if any.  Models the search
underlying Python's `str.find` (with start offset handled by `strFindFrom`). -/
def searchList (pat : List Char) : List Char → Option Nat
  | [] => if beginsWith pat [] then some 0 else none
  | c :: rest =>
    if beginsWith pat (c :: rest) then some 0
    else (searchList pat rest).map (· + 1)

/-- Models Python's `body.find(pat, start)` for `start` at most `len(body)`;
`none` models the return value `-1`. -/
def strFindFrom (body pat : String) (start : Nat) : Option Nat :=
  (searchList pat.data (body.data.drop start)).map (· + start)

/-- Models Python's `pat in body`. -/
def occursIn (pat body : String) : Bool :=
  (searchList pat.data body.data).isSome

/-- Models Python's slice `s[:n]` (code-point indexing). -/
def strTake (s : String) (n : Nat) : String := String.mk (s.data.take n)

/-- Models Python's slice `s[n:]` (code-point indexing). -/
def strDrop (s : String) (n : Nat) : String := String.mk (s.data.drop n)

theorem beginsWith_iff_take {pat s : List Char} :
    beginsWith pat s = true ↔ s.take pat.length = pat := by
  induction pat generalizing s with
  | nil => simp [beginsWith]
  | cons a as ih =>
    cases s with
    | nil => simp [beginsWith]
    | cons b bs =>
      simp only [beginsWith, Bool.and_eq_true, beq_iff_eq, List.length_cons,
        List.take_succ_cons, List.cons.injEq, ih]
      constructor
      · rintro ⟨h1, h2⟩; exact ⟨h1.symm, h2⟩
      · rintro ⟨h1, h2⟩; exact ⟨h1.symm, h2⟩

theorem length_le_of_matchesAtP {pat s : List Char} {i : Nat}
    (h : matchesAtP pat s i) (hne : pat ≠ []) : i + pat.length ≤ s.length := by
  have h' := beginsWith_iff_take.mp h
  have hlen : (List.take pat.length (s.drop i)).length = pat.length := by
    rw [h']
  have hpos : 0 < pat.length := List.length_pos.mpr hne
  rw [List.length_take, List.length_drop] at hlen
  omega

theorem searchList_eq_some {pat s : List Char} {k : Nat} :
    searchList pat s = some k ↔
      matchesAtP pat s k ∧ ∀ j, j < k → ¬ matchesAtP pat s j := by
  induction s generalizing k with
  | nil =>
    rw [searchList]
    by_cases h : beginsWith pat [] = true
    · rw [if_pos h]
      constructor
      · rintro hk
        injection hk with hk; subst hk
        exact ⟨by simpa [matchesAtP] using h, by omega⟩
      · rintro ⟨hm, hmin⟩
        have hk0 : k = 0 := by
          by_contra hne
          exact hmin 0 (Nat.pos_of_ne_zero hne) (by simpa [matchesAtP] using h)
        rw [hk0]
    · rw [if_neg h]
      constructor
      · rintro ⟨⟩
      · rintro ⟨hm, _⟩
        exact absurd (by simpa [matchesAtP] using hm) h
  | cons c rest ih =>
    rw [searchList]
    by_cases h : beginsWith pat (c :: rest) = true
    · rw [if_pos h]
      constructor
      · rintro hk
        injection hk with hk; subst hk
        exact ⟨by simpa [matchesAtP] using h, by omega⟩
      · rintro ⟨hm, hmin⟩
        have hk0 : k = 0 := by
          by_contra hne
          exact hmin 0 (Nat.pos_of_ne_zero hne) (by simpa [matchesAtP] using h)
        rw [hk0]
    · rw [if_neg h]
      simp only [Option.map_eq_some']
      constructor
      · rintro ⟨k', hk', rfl⟩
        rcases ih.mp hk' with ⟨hm, hmin⟩
        refine ⟨by simpa [matchesAtP] using hm, ?_⟩
        intro j hj
        cases j with
        | zero => simpa [matchesAtP] using h
        | succ j' =>
          have := hmin j' (by omega)
          simpa [matchesAtP] using this
      · rintro ⟨hm, hmin⟩
        cases k with
        | zero => exact absurd (by simpa [matchesAtP] using hm) h
        | succ k' =>
          refine ⟨k', ih.mpr ⟨by simpa [matchesAtP] using hm, ?_⟩, rfl⟩
          intro j hj
          have := hmin (j + 1) (by omega)
          simpa [matchesAtP] using this

theorem searchList_eq_none {pat s : List Char} :
    searchList pat s = none ↔ ∀ j, ¬ matchesAtP pat s j := by
  constructor
  · intro hnone j hm
    induction s generalizing j with
    | nil =>
      rw [searchList] at hnone
      by_cases h : beginsWith pat [] = true
      · rw [if_pos h] at hnone; exact Option.noConfusion hnone
      · simp only [matchesAtP, List.drop_nil] at hm
        exact absurd hm h
    | cons c rest ih =>
      rw [searchList] at hnone
      by_cases h : beginsWith pat (c :: rest) = true
      · rw [if_pos h] at hnone; exact Option.noConfusion hnone
      · rw [if_neg h] at hnone
        simp only [Option.map_eq_none'] at hnone
        cases j with
        | zero => exact absurd (by simpa [matchesAtP] using hm) h
        | succ j' => exact ih hnone j' (by simpa [matchesAtP] using hm)
  · intro hall
    cases hs : searchList pat s with
    | none => rfl
    | some k => exact absurd (searchList_eq_some.mp hs).1 (hall k)

/-- `pat` occurs in `s` at index `i`, and at no index in `[start, i)`;
the characterization of Python's `s.find(pat, start) == i`. -/
def firstOccurFromP (pat s : List Char) (start i : Nat) : Prop :=
  start ≤ i ∧ matchesAtP pat s i ∧ ∀ j, start ≤ j → j < i → ¬ matchesAtP pat s j

/-- First occurrence of `pat` in `s` is at index `i`. -/
def firstOccurP (pat s : List Char) (i : Nat) : Prop :=
  firstOccurFromP pat s 0 i

theorem matchesAtP_drop {pat s : List Char} {start k : Nat} :
    matchesAtP pat (s.drop start) k ↔ matchesAtP pat s (start + k) := by
  simp [matchesAtP, List.drop_drop]

theorem strFindFrom_eq_some {body pat : String} {start i : Nat} :
    strFindFrom body pat start = some i ↔
      firstOccurFromP pat.data body.data start i := by
  simp only [strFindFrom, Option.map_eq_some', firstOccurFromP]
  constructor
  · rintro ⟨k, hk, rfl⟩
    rcases searchList_eq_some.mp hk with ⟨hm, hmin⟩
    refine ⟨by omega, by rw [Nat.add_comm]; exact matchesAtP_drop.mp hm, ?_⟩
    intro j hj1 hj2 hm'
    have : matchesAtP pat.data (body.data.drop start) (j - start) := by
      rw [matchesAtP_drop]
      have : start + (j - start) = j := by omega
      rw [this]; exact hm'
    exact hmin (j - start) (by omega) this
  · rintro ⟨hle, hm, hmin⟩
    refine ⟨i - start, searchList_eq_some.mpr ⟨?_, ?_⟩, by omega⟩
    · rw [matchesAtP_drop]
      have : start + (i - start) = i := by omega
      rw [this]; exact hm
    · intro j hj hm'
      rw [matchesAtP_drop] at hm'
      exact hmin (start + j) (by omega) (by omega) hm'

theorem strFindFrom_eq_none {body pat : String} {start : Nat} :
    strFindFrom body pat start = none ↔
      ∀ j, start ≤ j → ¬ matchesAtP pat.data body.data j := by
  simp only [strFindFrom, Option.map_eq_none', searchList_eq_none]
  constructor
  · intro h j hj hm
    have : matchesAtP pat.data (body.data.drop start) (j - start) := by
      rw [matchesAtP_drop]
      have : start + (j - start) = j := by omega
      rw [this]; exact hm
    exact h (j - start) this
  · intro h j hm
    rw [matchesAtP_drop] at hm
    exact h (start + j) (by omega) hm

theorem occursIn_iff {pat body : String} :
    occursIn pat body = true ↔ ∃ i, matchesAtP pat.data body.data i := by
  simp only [occursIn, Option.isSome_iff_exists]
  constructor
  · rintro ⟨k, hk⟩; exact ⟨k, (searchList_eq_some.mp hk).1⟩
  · rintro ⟨i, hi⟩
    cases hs : searchList pat.data body.data with
    | none => exact absurd hi (searchList_eq_none.mp hs i)
    | some k => exact ⟨k, rfl⟩

/-- Embedding of `_replace_between_markers` (`build_index.py`, lines 91-107).
A `RuntimeError` becomes `Except.error`.  Note the code searches for the end
marker starting from `start_idx` (the *start* of the first start-marker
occurrence, not its end), and pads the replacement with newlines. -/
def replace_between_markers (body_html start_marker end_marker replacement : String) :
    Except String String :=
  if occursIn start_marker body_html && occursIn end_marker body_html then
    match strFindFrom body_html start_marker 0 with
    | none => Except.error "Invalid marker positions."
    | some start_idx =>
      match strFindFrom body_html end_marker start_idx with
      | none => Except.error "Invalid marker positions."
      | some end_idx =>
        if end_idx ≤ start_idx then Except.error "Invalid marker positions."
        else
          Except.ok (strTake body_html (start_idx + start_marker.length)
            ++ "\n" ++ replacement ++ "\n" ++ strDrop body_html end_idx)
  else
    Except.error ("Markers \x27" ++ start_marker ++ "\x27 or \x27"
      ++ end_marker ++ "\x27 not found.")

/-- A parsed `datetime.datetime` value: calendar fields plus an optional
fixed-offset timezone in minutes (`none` models a naive datetime). -/
structure DateTime where
  year : Nat
  month : Nat
  day : Nat
  hour : Nat
  minute : Nat
  second : Nat
  microsecond : Nat
  offsetMinutes : Option Int
deriving DecidableEq, Repr

def isLeapYear (y : Nat) : Bool :=
  (y % 4 == 0 && y % 100 != 0) || y % 400 == 0

def daysInMonth (y m : Nat) : Nat :=
  match m with
  | 1 => 31
  | 2 => if isLeapYear y then 29 else 28
  | 3 => 31
  | 4 => 30
  | 5 => 31
  | 6 => 30
  | 7 => 31
  | 8 => 31
  | 9 => 30
  | 10 => 31
  | 11 => 30
  | 12 => 31
  | _ => 0

/-- Days in months strictly before month `m` of year `y`. -/
def daysBeforeMonth (y : Nat) : Nat → Nat
  | 0 => 0
  | m + 1 => daysBeforeMonth y m + daysInMonth y m

/-- Days from 0001-01-01 to the given proleptic-Gregorian date
(`datetime.date.toordinal() - 1`). -/
def daysFromCivil (y m d : Nat) : Nat :=
  365 * (y - 1) + (y - 1) / 4 - (y - 1) / 100 + (y - 1) / 400
    + daysBeforeMonth y m + (d - 1)

/-- Total order key for `DateTime`: microseconds since 0001-01-01T00:00:00,
shifted to UTC by the offset.  For two aware or two naive datetimes this is
exactly CPython's comparison; comparing a naive with an aware datetime raises
`TypeError` in Python, and is totalised here by treating naive as offset 0
(no theorem below depends on a mixed comparison). -/
def dtKey (dt : DateTime) : Int :=
  ((daysFromCivil dt.year dt.month dt.day * 86400 + dt.hour * 3600
      + dt.minute * 60 + dt.second : Nat) : Int) * 1000000
    + (dt.microsecond : Int) - (dt.offsetMinutes.getD 0) * 60000000

def digitVal (c : Char) : Nat := c.toNat - '0'.toNat

def twoDigits : List Char → Option (Nat × List Char)
  | a :: b :: rest =>
    if a.isDigit && b.isDigit then some (digitVal a * 10 + digitVal b, rest)
    else none
  | _ => none

def fourDigits : List Char → Option (Nat × List Char)
  | a :: b :: c :: d :: rest =>
    if a.isDigit && b.isDigit && c.isDigit && d.isDigit then
      some (((digitVal a * 10 + digitVal b) * 10 + digitVal c) * 10 + digitVal d, rest)
    else none
  | _ => none

/-- Parse 1 to 6 fractional-second digits into microseconds. -/
def parseFraction (cs : List Char) : Option (Nat × List Char) :=
  let digits := cs.takeWhile Char.isDigit
  if digits.length == 0 || decide (6 < digits.length) then none
  else
    some (digits.foldl (fun acc c => acc * 10 + digitVal c) 0
        * 10 ^ (6 - digits.length),
      cs.dropWhile Char.isDigit)

/-- Parse an optional trailing UTC offset `±HH:MM` into minutes. -/
def parseTzOffset : List Char → Option (Option Int)
  | [] => some none
  | c :: rest =>
    if c == '+' || c == '-' then
      match twoDigits rest with
      | some (oh, ':' :: r2) =>
        match twoDigits r2 with
        | some (om, []) =>
          if oh ≤ 23 && om ≤ 59 then
            some (some (if c == '-' then -((oh : Int) * 60 + (om : Int))
              else (oh : Int) * 60 + (om : Int)))
          else none
        | _ => none
      | _ => none
    else none

/-- Parse the time-of-day portion `HH[:MM[:SS[.ffffff]]][±HH:MM]`. -/
def parseTimePart (cs : List Char) : Option (Nat × Nat × Nat × Nat × Option Int) :=
  match twoDigits cs with
  | none => none
  | some (h, r1) =>
    if 24 ≤ h then none
    else
      match r1 with
      | ':' :: r2 =>
        match twoDigits r2 with
        | none => none
        | some (mi, r3) =>
          if 60 ≤ mi then none
          else
            match r3 with
            | ':' :: r4 =>
              match twoDigits r4 with
              | none => none
              | some (sec, r5) =>
                if 60 ≤ sec then none
                else
                  match r5 with
                  | '.' :: r6 =>
                    match parseFraction r6 with
                    | none => none
                    | some (us, r7) =>
                      (parseTzOffset r7).map (fun tz => (h, mi, sec, us, tz))
                  | ',' :: r6 =>
                    match parseFraction r6 with
                    | none => none
                    | some (us, r7) =>
                      (parseTzOffset r7).map (fun tz => (h, mi, sec, us, tz))
                  | _ => (parseTzOffset r5).map (fun tz => (h, mi, sec, 0, tz))
            | _ => (parseTzOffset r3).map (fun tz => (h, mi, 0, 0, tz))
      | _ => (parseTzOffset r1).map (fun tz => (h, 0, 0, 0, tz))

/-- Model of `datetime.fromisoformat` on the extended ISO-8601 format
`YYYY-MM-DD[<sep>HH[:MM[:SS[.ffffff]]][±HH:MM]]` with full calendar
validation; `none` models `ValueError`.  (CPython also accepts some basic
formats without separators; the repository's manifests use this one.) -/
def fromisoformat (cs : List Char) : Option DateTime :=
  match fourDigits cs with
  | some (y, '-' :: r1) =>
    match twoDigits r1 with
    | some (m, '-' :: r2) =>
      match twoDigits r2 with
      | some (d, r3) =>
        if 1 ≤ y && 1 ≤ m && m ≤ 12 && 1 ≤ d && d ≤ daysInMonth y m then
          match r3 with
          | [] => some ⟨y, m, d, 0, 0, 0, 0, none⟩
          | _sep :: r4 =>
            match parseTimePart r4 with
            | some (h, mi, sec, us, tz) => some ⟨y, m, d, h, mi, sec, us, tz⟩
            | none => none
        else none
      | _ => none
    | _ => none
  | _ => none

/-- Models `value.replace("Z", "+00:00")`: every `Z` is expanded. -/
def replaceZ (s : String) : String :=
  String.mk (s.data.foldr
    (fun c acc =>
      if c == 'Z' then '+' :: '0' :: '0' :: ':' :: '0' :: '0' :: acc
      else c :: acc)
    [])

/-- Embedding of `_parse_iso_datetime` (`build_index.py`, lines 28-35). -/
def parse_iso_datetime (value : Option String) : Option DateTime :=
  match value with
  | none => none
  | some v => if v = "" then none else fromisoformat (replaceZ v).data

/-- A tool record from `tools.json`.  Each field models `dict.get(...)`:
`none` is a missing key (or JSON `null`). -/
structure Tool where
  slug : Option String
  title : Option String
  url : Option String
  filename : Option String
  created : Option String
  updated : Option String
deriving DecidableEq, Repr

/-- Python truthiness of `tool.get(key)`: `None` and `""` are falsy. -/
def truthyStr : Option String → Bool
  | none => false
  | some s => !(s == "")

/-- Python's `a or b` for an optional string `a` and default `b`. -/
def pyOrStr (o : Option String) (d : String) : String :=
  match o with
  | none => d
  | some s => if s = "" then d else s

/-- Embedding of `_has_distinct_update` (`build_index.py`, lines 38-49). -/
def has_distinct_update (tool : Tool) : Bool :=
  match parse_iso_datetime tool.updated with
  | none => false
  | some updated =>
    match parse_iso_datetime tool.created with
    | none => true
    | some created => decide (dtKey created < dtKey updated)

/-- `a` sorts no later than `b` when ordering `(tool, parsed_date)` pairs by
parsed date, descending — the key order of `dated_tools.sort(key=...,
reverse=True)`.  Equal dates leave both directions true, so a stable sort
keeps input order, exactly as Python's stable `list.sort`. -/
def descByDate (a b : Tool × DateTime) : Prop := dtKey b.2 ≤ dtKey a.2

instance : DecidableRel descByDate := fun a b => Int.decLe (dtKey b.2) (dtKey a.2)

instance : IsTotal (Tool × DateTime) descByDate :=
  ⟨fun a b => le_total (dtKey b.2) (dtKey a.2)⟩

instance : IsTrans (Tool × DateTime) descByDate :=
  ⟨fun _ _ _ hab hbc => le_trans hbc hab⟩

/-- The selection loop of `_select_recent` (lines 79-88): walk the sorted
list, skip excluded slugs, append, and break once `len(selected) >= limit`.
`cnt` carries `len(selected)` so far. -/
def select_loop (excl : List (Option String)) (limit : Nat) :
    List (Tool × DateTime) → Nat → List (Tool × DateTime)
  | [], _ => []
  | td :: rest, cnt =>
    if td.1.slug ∈ excl then select_loop excl limit rest cnt
    else if limit ≤ cnt + 1 then [td]
    else td :: select_loop excl limit rest (cnt + 1)

/-- Embedding of `_select_recent` (`build_index.py`, lines 63-88).  The field
name becomes an accessor `key : Tool → Option String`; the annotated entry
(`entry["parsed_date"] = parsed_date` on a copy) becomes the pair
`(tool, parsed_date)`.  `List.insertionSort` models Python's stable
descending sort. -/
def select_recent (tools : List Tool) (key : Tool → Option String)
    (limit : Nat) (exclude_slugs : List (Option String)) :
    List (Tool × DateTime) :=
  let dated0 := (tools.filter (fun t => truthyStr (key t))).map
    (fun t => (t, parse_iso_datetime (key t)))
  let dated := dated0.filterMap (fun p => p.2.map (fun d => (p.1, d)))
  let sortedDated := List.insertionSort descByDate dated
  select_loop exclude_slugs limit sortedDated 0

/-- Embedding of `_ordinal` (`build_index.py`, lines 19-25). -/
def ordinal (value : Nat) : String :=
  let suffix :=
    if 10 ≤ value % 100 && value % 100 ≤ 20 then "th"
    else
      match value % 10 with
      | 1 => "st"
      | 2 => "nd"
      | 3 => "rd"
      | _ => "th"
  Nat.repr value ++ suffix

/-- `%B`: full English month name, as `strftime` renders it. -/
def monthName : Nat → String
  | 1 => "January"
  | 2 => "February"
  | 3 => "March"
  | 4 => "April"
  | 5 => "May"
  | 6 => "June"
  | 7 => "July"
  | 8 => "August"
  | 9 => "September"
  | 10 => "October"
  | 11 => "November"
  | 12 => "December"
  | _ => ""

/-- Embedding of `_format_display_date` (lines 52-53). -/
def format_display_date (dt : DateTime) : String :=
  ordinal dt.day ++ " " ++ monthName dt.month ++ " " ++ Nat.repr dt.year

/-- Models `html.escape(s, quote=True)`. -/
def htmlEscape (s : String) : String :=
  String.mk (s.data.foldr
    (fun c acc =>
      if c == '&' then "&amp;".data ++ acc
      else if c == '<' then "&lt;".data ++ acc
      else if c == '>' then "&gt;".data ++ acc
      else if c == '"' then "&quot;".data ++ acc
      else if c == Char.ofNat 39 then "&#x27;".data ++ acc
      else c :: acc)
    [])

/-- One `<li>` of `render_list` inside `_render_recent_section`
(lines 114-134).  Entries always carry their parsed date, so the
`isinstance` test is always true. -/
def render_recent_item (td : Tool × DateTime) : String :=
  let slug := td.1.slug.getD ""
  let url := td.1.url.getD "#"
  let filename := td.1.filename.getD ""
  let formatted_date := format_display_date td.2
  let colophon_url :=
    if filename ≠ "" then "https://tools.mathspp.com/colophon#" ++ filename
    else "#"
  let date_html :=
    if formatted_date ≠ "" then
      "<span class=\"recent-date\"> — <a href=\"" ++ colophon_url ++ "\">"
        ++ formatted_date ++ "</a></span>"
    else ""
  "        <li><a href=\"" ++ url ++ "\">" ++ slug ++ "</a>" ++ date_html ++ "</li>"

/-- `render_list` of `_render_recent_section` (lines 111-135). -/
def render_list (tools : List (Tool × DateTime)) : String :=
  if tools.isEmpty then
    "        <li class=\"recent-empty\">No entries available.</li>"
  else String.intercalate "\n" (tools.map render_recent_item)

/-- Embedding of `_render_recent_section` (lines 110-155). -/
def render_recent_section (recently_added recently_updated : List (Tool × DateTime)) :
    String :=
  "\n<section class=\"surface recent-highlights content-flow\">\n  <div class=\"recent-grid\">\n    <article class=\"recent-card\">\n      <h2>Recently added</h2>\n      <ul class=\"recent-list\">\n"
    ++ render_list recently_added
    ++ "\n      </ul>\n    </article>\n    <article class=\"recent-card\">\n      <h2>Recently updated</h2>\n      <ul class=\"recent-list\">\n"
    ++ render_list recently_updated
    ++ "\n      </ul>\n    </article>\n  </div>\n</section>\n"

/-- Python's string `<=`: code-point lexicographic, with a proper initial
segment below its extensions.  Defined directly on the character list so the
kernel can evaluate it (Lean's own `String` order goes through byte
iterators and does not reduce definitionally). -/
def listLexLe : List Char → List Char → Bool
  | [], _ => true
  | _ :: _, [] => false
  | a :: as, b :: bs =>
    if a < b then true
    else if b < a then false
    else listLexLe as bs

/-- Python's string `<` on character lists. -/
def listLexLt : List Char → List Char → Bool
  | [], [] => false
  | [], _ :: _ => true
  | _ :: _, [] => false
  | a :: as, b :: bs =>
    if a < b then true
    else if b < a then false
    else listLexLt as bs

/-- Python's `a <= b` on strings. -/
def sLe (a b : String) : Prop := listLexLe a.data b.data = true

/-- Python's `a < b` on strings. -/
def sLt (a b : String) : Prop := listLexLt a.data b.data = true

instance (a b : String) : Decidable (sLe a b) :=
  inferInstanceAs (Decidable (listLexLe a.data b.data = true))

instance (a b : String) : Decidable (sLt a b) :=
  inferInstanceAs (Decidable (listLexLt a.data b.data = true))

theorem listLexLe_refl : ∀ a : List Char, listLexLe a a = true := by
  intro a
  induction a with
  | nil => rfl
  | cons x xs ih =>
    rw [listLexLe, if_neg (lt_irrefl x), if_neg (lt_irrefl x)]
    exact ih

theorem listLexLe_trans : ∀ a b c : List Char,
    listLexLe a b = true → listLexLe b c = true → listLexLe a c = true := by
  intro a
  induction a with
  | nil => intro b c _ _; rfl
  | cons x xs ih =>
    intro b c hab hbc
    cases b with
    | nil => rw [listLexLe] at hab; exact Bool.noConfusion hab
    | cons y ys =>
      cases c with
      | nil => rw [listLexLe] at hbc; exact Bool.noConfusion hbc
      | cons z zs =>
        rw [listLexLe] at hab hbc ⊢
        by_cases hxy : x < y
        · by_cases hyz : y < z
          · rw [if_pos (lt_trans hxy hyz)]
          · by_cases hzy : z < y
            · rw [if_neg hyz, if_pos hzy] at hbc
              exact Bool.noConfusion hbc
            · have heq : y = z := le_antisymm (not_lt.mp hzy) (not_lt.mp hyz)
              subst heq
              rw [if_pos hxy]
        · by_cases hyx : y < x
          · rw [if_neg hxy, if_pos hyx] at hab
            exact Bool.noConfusion hab
          · have heq : x = y := le_antisymm (not_lt.mp hyx) (not_lt.mp hxy)
            subst heq
            rw [if_neg (lt_irrefl x), if_neg (lt_irrefl x)] at hab
            by_cases hxz : x < z
            · rw [if_pos hxz]
            · by_cases hzx : z < x
              · rw [if_neg hxz, if_pos hzx] at hbc
                exact Bool.noConfusion hbc
              · rw [if_neg hxz, if_neg hzx] at hbc ⊢
                exact ih ys zs hab hbc

theorem listLexLe_total : ∀ a b : List Char,
    listLexLe a b = true ∨ listLexLe b a = true := by
  intro a
  induction a with
  | nil => intro b; left; rfl
  | cons x xs ih =>
    intro b
    cases b with
    | nil => right; rfl
    | cons y ys =>
      rw [listLexLe, listLexLe]
      by_cases hxy : x < y
      · left; rw [if_pos hxy]
      · by_cases hyx : y < x
        · right; rw [if_pos hyx]
        · have heq : x = y := le_antisymm (not_lt.mp hyx) (not_lt.mp hxy)
          subst heq
          simp only [lt_irrefl, if_false]
          rcases ih ys with h | h
          · left; exact h
          · right; exact h

theorem listLexLt_eq_not_le : ∀ a b : List Char,
    listLexLt a b = !(listLexLe b a) := by
  intro a
  induction a with
  | nil =>
    intro b
    cases b with
    | nil => rfl
    | cons y ys => rfl
  | cons x xs ih =>
    intro b
    cases b with
    | nil => rfl
    | cons y ys =>
      rw [listLexLt, listLexLe]
      by_cases hxy : x < y
      · rw [if_pos hxy, if_neg (lt_asymm hxy), if_pos hxy]
        rfl
      · by_cases hyx : y < x
        · rw [if_neg hxy, if_pos hyx, if_pos hyx]
          rfl
        · have heq : x = y := le_antisymm (not_lt.mp hyx) (not_lt.mp hxy)
          subst heq
          simp only [lt_irrefl, if_false]
          exact ih ys

theorem sLe_refl (a : String) : sLe a a := listLexLe_refl a.data

theorem sLe_trans {a b c : String} (hab : sLe a b) (hbc : sLe b c) : sLe a c :=
  listLexLe_trans a.data b.data c.data hab hbc

theorem sLe_total (a b : String) : sLe a b ∨ sLe b a :=
  listLexLe_total a.data b.data

theorem sLt_iff_not_sLe {a b : String} : sLt a b ↔ ¬ sLe b a := by
  unfold sLt sLe
  rw [listLexLt_eq_not_le]
  cases listLexLe b.data a.data <;> simp

theorem sLt_sLe {a b : String} (h : sLt a b) : sLe a b := by
  rcases sLe_total a b with h' | h'
  · exact h'
  · exact absurd h' (sLt_iff_not_sLe.mp h)

theorem sLt_of_sLt_of_sLe {a b c : String} (hab : sLt a b) (hbc : sLe b c) :
    sLt a c := by
  rw [sLt_iff_not_sLe] at hab ⊢
  intro hca
  exact hab (sLe_trans hbc hca)

/-- Python's `max(a, b)` on strings: the second argument wins only when it is
strictly larger. -/
def maxStr (a b : String) : String := if sLt a b then b else a

theorem sLe_maxStr_left (a b : String) : sLe a (maxStr a b) := by
  unfold maxStr
  by_cases h : sLt a b
  · rw [if_pos h]; exact sLt_sLe h
  · rw [if_neg h]; exact sLe_refl a

theorem sLe_maxStr_right (a b : String) : sLe b (maxStr a b) := by
  unfold maxStr
  by_cases h : sLt a b
  · rw [if_pos h]; exact sLe_refl b
  · rw [if_neg h]
    by_contra hba
    exact h (sLt_iff_not_sLe.mpr hba)

theorem maxStr_sLt {a b d : String} (ha : sLt a d) (hb : sLt b d) :
    sLt (maxStr a b) d := by
  unfold maxStr
  by_cases h : sLt a b
  · rw [if_pos h]; exact hb
  · rw [if_neg h]; exact ha

/-- Models `str.casefold`.  For the ASCII manifest data this coincides with
full Unicode case folding; the sort key uses it only through string order. -/
def caseFold (s : String) : String := String.mk (s.data.map Char.toLower)

/-- Sort key of `_render_tools_index`:
`(tool.get("title") or tool.get("slug") or "").casefold()`. -/
def toolSortKey (t : Tool) : String := caseFold (pyOrStr t.title (pyOrStr t.slug ""))

/-- Ascending order on tools by `toolSortKey` (Python's `sorted`, stable). -/
def titleAsc (a b : Tool) : Prop := sLe (toolSortKey a) (toolSortKey b)

instance : DecidableRel titleAsc :=
  fun a b => inferInstanceAs (Decidable (sLe (toolSortKey a) (toolSortKey b)))

instance : IsTotal Tool titleAsc :=
  ⟨fun a b => sLe_total (toolSortKey a) (toolSortKey b)⟩

instance : IsTrans Tool titleAsc := ⟨fun _ _ _ => sLe_trans⟩

/-- `sorted_tools` of `_render_tools_index` (lines 159-163): drop the
`"index"` slug, then sort ascending by the casefolded title/slug key. -/
def sorted_tools (tools : List Tool) : List Tool :=
  List.insertionSort titleAsc (tools.filter (fun t => t.slug != some "index"))

/-- One `<li>` of the Tool Index directory (lines 167-172). -/
def render_tool_item (t : Tool) : String :=
  let title := pyOrStr t.title (pyOrStr t.slug "Untitled tool")
  let url := pyOrStr t.url ("/" ++ t.slug.getD "")
  "      <li><a href=\"" ++ htmlEscape url ++ "\">" ++ htmlEscape title ++ "</a></li>"

/-- `list_content` of `_render_tools_index` (lines 165-175). -/
def tools_index_list_content (tools : List Tool) : String :=
  if sorted_tools tools ≠ [] then
    String.intercalate "\n" ((sorted_tools tools).map render_tool_item)
  else "      <li class=\"tools-directory-empty\">No tools available.</li>"

/-- Models `str.strip()`. -/
def stripStr (s : String) : String :=
  String.mk (((s.data.dropWhile Char.isWhitespace).reverse.dropWhile
    Char.isWhitespace).reverse)

/-- Embedding of `_render_tools_index` (`build_index.py`, lines 158-185). -/
def render_tools_index (tools : List Tool) : String :=
  stripStr ("\n<section class=\"surface tools-directory content-flow\">\n  <h2>Tool Index</h2>\n  <ul class=\"tools-directory-list\">\n"
    ++ tools_index_list_content tools
    ++ "\n  </ul>\n</section>\n")

/-- `recently_added` in `build_index` (line 197). -/
def recently_added_of (tools : List Tool) : List (Tool × DateTime) :=
  select_recent tools (fun t => t.created) 5 []

/-- `added_slugs` in `build_index` (line 198). -/
def added_slugs_of (tools : List Tool) : List (Option String) :=
  (recently_added_of tools).map (fun td => td.1.slug)

/-- `recently_updated` in `build_index` (lines 199-202). -/
def recently_updated_of (tools : List Tool) : List (Tool × DateTime) :=
  select_recent (tools.filter has_distinct_update) (fun t => t.updated) 5
    (added_slugs_of tools)

/-- The fixed page template of `build_index` (lines 222-239). -/
def full_html (wrapped_body : String) : String :=
  "<!DOCTYPE html>\n<html lang=\"en\">\n<head>\n    <meta charset=\"UTF-8\">\n    <meta name=\"viewport\" content=\"width=device-width, initial-scale=1.0\">\n    <title>tools.mathspp.com</title>\n    <link rel=\"stylesheet\" href=\"styles.css\">\n</head>\n<body>\n    <main class=\"page-shell content-flow\">\n"
    ++ wrapped_body
    ++ "\n    </main>\n    <footer class=\"page-footer\">\n        <p>Built with ❤️, 🤖, and 🐍, by <a href=\"https://mathspp.com/\">Rodrigo Girão Serrão</a></p>\n    </footer>\n</body>\n</html>\n"

/-- Embedding of `build_index` (`build_index.py`, lines 188-242).
`mdConvert` is the out-of-scope Markdown library; `readme` and `tools_json`
are the two input files (`none` = file missing).  `_load_tools` returns `[]`
when `tools.json` does not exist (lines 56-60), hence `Option.getD []`;
a missing `README.md` raises `FileNotFoundError("README.md not found")`. -/
def build_index (mdConvert : String → String) (readme : Option String)
    (tools_json : Option (List Tool)) : Except String String :=
  match readme with
  | none => Except.error "README.md not found"
  | some markdown_content =>
    let body_html := mdConvert markdown_content
    let tools := tools_json.getD []
    let recent_section :=
      render_recent_section (recently_added_of tools) (recently_updated_of tools)
    match replace_between_markers body_html "<!-- recently starts -->"
        "<!-- recently stops -->" recent_section with
    | Except.error e => Except.error e
    | Except.ok body2 =>
      match replace_between_markers body2 "<!-- tools index starts -->"
          "<!-- tools index stops -->" (render_tools_index tools) with
      | Except.error e => Except.error e
      | Except.ok body3 =>
        Except.ok (full_html ("<article class=\"content-flow\">\n" ++ body3
          ++ "\n</article>"))

/-- A commit record from `gathered_links.json`; missing keys are `none`. -/
structure CommitRec where
  hash : Option String
  date : Option String
  message : Option String
deriving DecidableEq, Repr

/-- A page entry value: `{"commits": [...]}`. -/
structure PageData where
  commits : List CommitRec
deriving DecidableEq, Repr

/-- The commit-history document `{"pages": {page_name: page_data}}`; the
dictionary becomes an association list in insertion order. -/
structure GatheredData where
  pages : List (String × PageData)
deriving DecidableEq, Repr

/-- The sentinel minimal date of `get_most_recent_date`. -/
def sentinel_date : String := "0000-00-00T00:00:00"

/-- Models `commit.get("date", "0000-00-00T00:00:00")` (line 51). -/
def commit_date (c : CommitRec) : String := c.date.getD sentinel_date

/-- Python's `max(dates)` on a list of strings (nonempty in context);
string comparison is code-point lexicographic in both languages. -/
def max_of_dates : List String → String
  | [] => sentinel_date
  | d :: ds => ds.foldl maxStr d

/-- Embedding of `get_most_recent_date` (`build_colophon.py`, lines 47-52). -/
def get_most_recent_date (page_data : PageData) : String :=
  if page_data.commits.isEmpty then sentinel_date
  else max_of_dates (page_data.commits.map commit_date)

/-- Descending order on `(page_name, page_data)` items by most recent commit
date — the key order of `sorted(pages.items(), key=..., reverse=True)`. -/
def pageDesc (a b : String × PageData) : Prop :=
  sLe (get_most_recent_date b.2) (get_most_recent_date a.2)

instance : DecidableRel pageDesc :=
  fun a b =>
    inferInstanceAs
      (Decidable (sLe (get_most_recent_date b.2) (get_most_recent_date a.2)))

instance : IsTotal (String × PageData) pageDesc :=
  ⟨fun a b => sLe_total (get_most_recent_date b.2) (get_most_recent_date a.2)⟩

instance : IsTrans (String × PageData) pageDesc :=
  ⟨fun _ _ _ hab hbc => sLe_trans hbc hab⟩

/-- `sorted_pages` of `build_colophon` (lines 54-56); `List.insertionSort`
models Python's stable `sorted`. -/
def sorted_pages (pages : List (String × PageData)) : List (String × PageData) :=
  List.insertionSort pageDesc pages

/-- The order in which `build_colophon` emits one `<article>` per page:
the page names of `sorted_pages`, in output order. -/
def colophon_page_order (pages : List (String × PageData)) : List String :=
  (sorted_pages pages).map Prod.fst

/-- Models Python's `s.replace(pat, repl)` for a nonempty `pat` (the script
only replaces `".html"`; Python's empty-pattern behavior is not modelled). -/
def replaceSub (pat repl : List Char) : List Char → List Char
  | [] => []
  | c :: rest =>
    if pat ≠ [] ∧ beginsWith pat (c :: rest) = true then
      repl ++ replaceSub pat repl (rest.drop (pat.length - 1))
    else c :: replaceSub pat repl rest
termination_by l => l.length
decreasing_by
  · simp only [List.length_drop, List.length_cons]
    omega
  · simp only [List.length_cons]
    omega

def strReplace (s pat repl : String) : String :=
  String.mk (replaceSub pat.data repl.data s.data)

/-- Zero-padded two-digit field, as `strftime` `%d`/`%H`/`%M` render it. -/
def pad2 (n : Nat) : String :=
  if n < 10 then "0" ++ Nat.repr n else Nat.repr n

/-- The per-commit date display of `build_colophon` (lines 120-126):
`strftime("%B %d, %Y %H:%M")` when the date parses, else the raw string. -/
def format_colophon_date (s : String) : String :=
  if s = "" then ""
  else
    match fromisoformat s.data with
    | some dt =>
      monthName dt.month ++ " " ++ pad2 dt.day ++ ", " ++ Nat.repr dt.year
        ++ " " ++ pad2 dt.hour ++ ":" ++ pad2 dt.minute
    | none => s

/-- Embedding of `format_commit_message` (`build_colophon.py`, lines 15-31):
HTML-escape, then Markdown-convert (the library is the opaque parameter). -/
def format_commit_message (mdConvert : String → String) (message : String) : String :=
  mdConvert (htmlEscape message)

/-- One commit `<div>` of `build_colophon` (lines 115-141). -/
def render_commit (mdConvert : String → String) (commit : CommitRec) : String :=
  let commit_hash := commit.hash.getD ""
  let short_hash := if commit_hash ≠ "" then strTake commit_hash 7 else "unknown"
  let formatted_date := format_colophon_date (commit.date.getD "")
  let formatted_message := format_commit_message mdConvert (commit.message.getD "")
  let commit_url := "https://github.com/mathspp/tools/commit/" ++ commit_hash
  "\n                    <div class=\"commit\" id=\"commit-" ++ short_hash
    ++ "\">\n                        <div>\n                            <a href=\""
    ++ htmlEscape commit_url ++ "\" class=\"commit-hash\">" ++ short_hash
    ++ "</a>\n                            <span class=\"commit-date\">"
    ++ formatted_date
    ++ "</span>\n                        </div>\n                        <div class=\"commit-message\">"
    ++ formatted_message
    ++ "</div>\n                    </div>\n"

/-- One page `<article>` of `build_colophon` (lines 78-146).  `docsFiles`
models the filesystem lookup of the optional `<page>.docs.md` file; a missing
or unreadable docs file contributes nothing. -/
def render_page_entry (mdConvert : String → String)
    (docsFiles : String → Option String) (pageEntry : String × PageData) : String :=
  let page_name := pageEntry.1
  let page_data := pageEntry.2
  let tool_url := "https://tools.mathspp.com/" ++ strReplace page_name ".html" ""
  let github_url := "https://github.com/mathspp/tools/blob/main/" ++ page_name
  let commits := page_data.commits.reverse
  let commit_count := commits.length
  let display_name := htmlEscape (strReplace page_name ".html" "")
  let page_id := htmlEscape page_name
  let headerHtml :=
    "\n            <article class=\"surface tool-entry\" id=\"" ++ page_id
      ++ "\">\n                <header class=\"tool-entry-header\">\n                    <a class=\"tool-entry-anchor\" href=\"#"
      ++ page_id ++ "\" aria-label=\"Permalink to " ++ display_name
      ++ "\">#</a>\n                    <h2 class=\"tool-entry-title\"><a href=\""
      ++ htmlEscape tool_url ++ "\">" ++ display_name
      ++ "</a></h2>\n                    <div class=\"tool-entry-links\">\n                        <a href=\""
      ++ htmlEscape github_url
      ++ "\">View code</a>\n                    </div>\n                </header>\n"
  let docsHtml :=
    match docsFiles (strReplace page_name ".html" ".docs.md") with
    | some docs_content =>
      "<div class=\"tool-entry-docs\">" ++ mdConvert docs_content ++ "</div>"
    | none => ""
  let detailsHeader :=
    "\n                <details>\n                    <summary>Development history ("
      ++ Nat.repr commit_count ++ " commit"
      ++ (if 1 < commit_count then "s" else "")
      ++ ")</summary>\n"
  headerHtml ++ docsHtml ++ detailsHeader
    ++ String.join (commits.map (render_commit mdConvert))
    ++ "\n                </details>\n            </article>\n"

/-- The fixed head of `colophon.html` (lines 60-76). -/
def colophon_head (tool_count : Nat) : String :=
  "<!DOCTYPE html>\n<html lang=\"en\">\n<head>\n    <meta charset=\"UTF-8\">\n    <meta name=\"viewport\" content=\"width=device-width, initial-scale=1.0\">\n    <title>tools.mathspp.com colophon</title>\n    <link rel=\"stylesheet\" href=\"styles.css\">\n</head>\n<body>\n    <header class=\"page-shell content-flow\">\n        <h1>tools.mathspp.com colophon</h1>\n        <p>The tools on <a href=\"https://tools.mathspp.com/\">tools.mathspp.com</a> were mostly built using AI-assisted programming. This page lists "
    ++ Nat.repr tool_count
    ++ " tools and their development history.</p>\n        <p>This page lists the commit messages for each tool.</p>\n    </header>\n    <main class=\"page-shell content-flow\">\n        <section class=\"tool-list\">\n"

/-- The fixed tail of `colophon.html` (lines 148-167), inline script included. -/
def colophon_tail : String :=
  "\n        </section>\n    </main>\n    <script>\n    document.addEventListener(\x27DOMContentLoaded\x27, () => \x7b\n        const hash = window.location.hash.slice(1);\n        if (hash) \x7b\n            const element = document.getElementById(hash);\n            if (element) \x7b\n                const details = element.querySelector(\x27details\x27);\n                if (details) \x7b\n                    details.open = true;\n                \x7d\n            \x7d\n        \x7d\n    \x7d);\n    </script>\n</body>\n</html>\n"

/-- Embedding of `build_colophon` (`build_colophon.py`, lines 34-172).
`gathered = none` models a missing `gathered_links.json`; the script then
prints its diagnostic and returns without writing any output, modelled as
`Except.error`.  Likewise for an empty `pages` mapping. -/
def build_colophon (mdConvert : String → String)
    (docsFiles : String → Option String) (gathered : Option GatheredData) :
    Except String String :=
  match gathered with
  | none =>
    Except.error "Error: gathered_links.json not found. Run gather_links.py first."
  | some data =>
    if data.pages.isEmpty then
      Except.error "No pages found in gathered_links.json"
    else
      Except.ok (colophon_head (sorted_pages data.pages).length
        ++ String.join ((sorted_pages data.pages).map
          (render_page_entry mdConvert docsFiles))
        ++ colophon_tail)

theorem orderedInsert_all_le {α : Type} {r : α → α → Prop} [DecidableRel r]
    {a : α} {l : List α} (h : ∀ b ∈ l, r a b) :
    List.orderedInsert r a l = a :: l := by
  cases l with
  | nil => rfl
  | cons b bs =>
    simp only [List.orderedInsert]
    rw [if_pos (h b (by simp))]

theorem filter_orderedInsert {α : Type} {r : α → α → Prop} [DecidableRel r]
    [IsTrans α r] (p : α → Bool) (a : α) :
    ∀ l : List α, l.Sorted r →
      (List.orderedInsert r a l).filter p =
        if p a then List.orderedInsert r a (l.filter p) else l.filter p := by
  intro l
  induction l with
  | nil =>
    intro _
    by_cases hpa : p a = true <;> simp [List.orderedInsert, hpa]
  | cons b l ih =>
    intro hsort
    rcases List.sorted_cons.mp hsort with ⟨hb, hl⟩
    by_cases hrab : r a b
    · by_cases hpa : p a = true
      · by_cases hpb : p b = true
        · simp [List.orderedInsert, hrab, hpa, hpb]
        · have hins : List.orderedInsert r a (List.filter p l) =
              a :: List.filter p l :=
            orderedInsert_all_le
              (fun c hc => Trans.trans hrab (hb c (List.mem_of_mem_filter hc)))
          simp [List.orderedInsert, hrab, hpa, hpb, hins]
      · simp [List.orderedInsert, hrab, hpa]
    · by_cases hpb : p b = true
      · by_cases hpa : p a = true
        · simp [List.orderedInsert, hrab, hpa, hpb, ih hl]
        · simp [List.orderedInsert, hrab, hpa, hpb, ih hl]
      · simp [List.orderedInsert, hrab, hpb, ih hl]

theorem filter_insertionSort {α : Type} {r : α → α → Prop} [DecidableRel r]
    [IsTotal α r] [IsTrans α r] (p : α → Bool) (l : List α) :
    (List.insertionSort r l).filter p = List.insertionSort r (l.filter p) := by
  induction l with
  | nil => rfl
  | cons a l ih =>
    simp only [List.insertionSort]
    rw [filter_orderedInsert p a _ (List.sorted_insertionSort r l)]
    by_cases hpa : p a = true
    · rw [if_pos hpa, ih, List.filter_cons_of_pos hpa]
      rfl
    · rw [if_neg hpa, ih, List.filter_cons_of_neg hpa]

theorem select_loop_eq_take_filter (excl : List (Option String)) (limit : Nat) :
    ∀ (l : List (Tool × DateTime)) (cnt : Nat), cnt < limit →
      select_loop excl limit l cnt =
        (l.filter (fun td => decide (td.1.slug ∉ excl))).take (limit - cnt) := by
  intro l
  induction l with
  | nil => intro cnt _; simp [select_loop]
  | cons td rest ih =>
    intro cnt hcnt
    rw [select_loop]
    by_cases hmem : td.1.slug ∈ excl
    · rw [if_pos hmem, List.filter_cons_of_neg (by simpa using hmem)]
      exact ih cnt hcnt
    · rw [if_neg hmem, List.filter_cons_of_pos (by simpa using hmem)]
      by_cases hlim : limit ≤ cnt + 1
      · rw [if_pos hlim]
        have : limit - cnt = 1 := by omega
        rw [this, List.take_succ_cons, List.take_zero]
      · rw [if_neg hlim, ih (cnt + 1) (by omega)]
        have : limit - cnt = (limit - (cnt + 1)) + 1 := by omega
        rw [this, List.take_succ_cons]

theorem select_loop_not_excluded (excl : List (Option String)) (limit : Nat) :
    ∀ (l : List (Tool × DateTime)) (cnt : Nat) (x : Tool × DateTime),
      x ∈ select_loop excl limit l cnt → x.1.slug ∉ excl := by
  intro l
  induction l with
  | nil => intro cnt x hx; simp [select_loop] at hx
  | cons td rest ih =>
    intro cnt x hx
    rw [select_loop] at hx
    by_cases hmem : td.1.slug ∈ excl
    · rw [if_pos hmem] at hx
      exact ih cnt x hx
    · rw [if_neg hmem] at hx
      by_cases hlim : limit ≤ cnt + 1
      · rw [if_pos hlim] at hx
        rcases List.mem_singleton.mp hx with rfl
        exact hmem
      · rw [if_neg hlim] at hx
        rcases List.mem_cons.mp hx with rfl | hx'
        · exact hmem
        · exact ih (cnt + 1) x hx'

theorem parse_of_not_truthy {o : Option String} (h : truthyStr o = false) :
    parse_iso_datetime o = none := by
  cases o with
  | none => rfl
  | some s =>
    simp only [truthyStr, Bool.not_eq_false', beq_iff_eq] at h
    simp [parse_iso_datetime, h]

theorem dated_pipeline_eq (tools : List Tool) (key : Tool → Option String) :
    ((tools.filter (fun t => truthyStr (key t))).map
        (fun t => (t, parse_iso_datetime (key t)))).filterMap
      (fun p => p.2.map (fun d => (p.1, d))) =
      tools.filterMap (fun t => (parse_iso_datetime (key t)).map (fun d => (t, d))) := by
  induction tools with
  | nil => rfl
  | cons t ts ih =>
    by_cases ht : truthyStr (key t) = true
    · cases hp : parse_iso_datetime (key t) with
      | none => simp [List.filter_cons, ht, hp, ih]
      | some d => simp [List.filter_cons, ht, hp, ih]
    · have hp : parse_iso_datetime (key t) = none :=
        parse_of_not_truthy (Bool.of_not_eq_true ht)
      simp [List.filter_cons, ht, hp, ih]

theorem filter_excl_filterMap (tools : List Tool) (key : Tool → Option String)
    (excl : List (Option String)) :
    (tools.filterMap (fun t => (parse_iso_datetime (key t)).map
        (fun d => (t, d)))).filter (fun td => decide (td.1.slug ∉ excl)) =
      tools.filterMap (fun t =>
        if t.slug ∈ excl then none
        else (parse_iso_datetime (key t)).map (fun d => (t, d))) := by
  induction tools with
  | nil => rfl
  | cons t ts ih =>
    rw [List.filterMap_cons, List.filterMap_cons]
    cases hp : parse_iso_datetime (key t) with
    | none =>
      simp only [Option.map_none']
      by_cases hmem : t.slug ∈ excl
      · rw [if_pos hmem]; exact ih
      · rw [if_neg hmem]; exact ih
    | some d =>
      simp only [Option.map_some']
      by_cases hmem : t.slug ∈ excl
      · rw [if_pos hmem, List.filter_cons_of_neg (by simpa using hmem)]
        exact ih
      · rw [if_neg hmem, List.filter_cons_of_pos (by simpa using hmem)]
        rw [ih]

theorem select_recent_eq_sorted_take (tools : List Tool)
    (key : Tool → Option String) (limit : Nat) (excl : List (Option String))
    (hlim : 0 < limit) :
    select_recent tools key limit excl =
      (List.insertionSort descByDate (tools.filterMap (fun t =>
        if t.slug ∈ excl then none
        else (parse_iso_datetime (key t)).map (fun d => (t, d))))).take limit := by
  simp only [select_recent]
  rw [dated_pipeline_eq, select_loop_eq_take_filter excl limit _ 0 hlim,
    Nat.sub_zero, filter_insertionSort, filter_excl_filterMap]

theorem select_loop_subset (excl : List (Option String)) (limit : Nat) :
    ∀ (l : List (Tool × DateTime)) (cnt : Nat) (x : Tool × DateTime),
      x ∈ select_loop excl limit l cnt → x ∈ l := by
  intro l
  induction l with
  | nil => intro cnt x hx; simp [select_loop] at hx
  | cons td rest ih =>
    intro cnt x hx
    rw [select_loop] at hx
    by_cases hmem : td.1.slug ∈ excl
    · rw [if_pos hmem] at hx
      exact List.mem_cons_of_mem td (ih cnt x hx)
    · rw [if_neg hmem] at hx
      by_cases hlim : limit ≤ cnt + 1
      · rw [if_pos hlim] at hx
        rcases List.mem_singleton.mp hx with rfl
        exact List.mem_cons_self _ _
      · rw [if_neg hlim] at hx
        rcases List.mem_cons.mp hx with rfl | hx'
        · exact List.mem_cons_self _ _
        · exact List.mem_cons_of_mem td (ih (cnt + 1) x hx')

theorem select_recent_not_excluded (tools : List Tool)
    (key : Tool → Option String) (limit : Nat) (excl : List (Option String))
    (x : Tool × DateTime) (hx : x ∈ select_recent tools key limit excl) :
    x.1.slug ∉ excl := by
  simp only [select_recent] at hx
  exact select_loop_not_excluded excl limit _ 0 x hx

theorem select_recent_mem_base (tools : List Tool)
    (key : Tool → Option String) (limit : Nat) (excl : List (Option String))
    (x : Tool × DateTime) (hx : x ∈ select_recent tools key limit excl) :
    x.1 ∈ tools ∧ parse_iso_datetime (key x.1) = some x.2 := by
  simp only [select_recent] at hx
  have h1 := select_loop_subset excl limit _ 0 x hx
  have h2 := (List.perm_insertionSort descByDate _).mem_iff.mp h1
  rw [dated_pipeline_eq] at h2
  rcases List.mem_filterMap.mp h2 with ⟨t, htl, hft⟩
  rcases Option.map_eq_some'.mp hft with ⟨d, hd, heq⟩
  cases heq
  exact ⟨htl, hd⟩

/-- Concrete fixture: a tool with only a creation date. -/
def toolA : Tool := ⟨some "alpha", none, none, none, some "2024-05-01", none⟩

/-- Concrete fixture: a tool with only an update date. -/
def toolU : Tool := ⟨some "upsilon", none, none, none, none, some "2024-06-01"⟩

/-- Concrete fixture: a tool created and updated at the same instant. -/
def toolE : Tool := ⟨some "echo", none, none, none, some "2024-01-01", some "2024-01-01"⟩

def dtA : DateTime := ⟨2024, 5, 1, 0, 0, 0, 0, none⟩

def dtU : DateTime := ⟨2024, 6, 1, 0, 0, 0, 0, none⟩

def dtJ : DateTime := ⟨2024, 1, 1, 0, 0, 0, 0, none⟩

/-- C1 counterexample: the claim promises at most `limit` records for *every*
limit, but with `limit = 0` the loop appends one record before testing
`len(selected) >= limit`, so `_select_recent` returns one record, not zero. -/
theorem select_recent_limit_zero_cex :
    select_recent [toolA] (fun t => t.created) 0 [] = [(toolA, dtA)] ∧
    ¬ ((select_recent [toolA] (fun t => t.created) 0 []).length ≤ 0) := by
  decide

/-- C1 (amended: the limit must be positive; with `limit = 0` one record is
still returned).  For every tool sequence, timestamp accessor, positive
limit and exclusion list, `_select_recent` returns exactly the first
up-to-`limit` records — in descending parsed-timestamp order, ties broken by
input order via the stable sort — of those records whose field parses and
whose slug is not excluded; in particular at most `limit` records, sorted
descending, each annotated with its parsed timestamp, drawn from the input,
and never carrying an excluded slug. -/
theorem select_recent_spec (tools : List Tool) (key : Tool → Option String)
    (limit : Nat) (excl : List (Option String)) (hlim : 0 < limit) :
    select_recent tools key limit excl =
      (List.insertionSort descByDate (tools.filterMap (fun t =>
        if t.slug ∈ excl then none
        else (parse_iso_datetime (key t)).map (fun d => (t, d))))).take limit
    ∧ (select_recent tools key limit excl).length ≤ limit
    ∧ (select_recent tools key limit excl).Pairwise descByDate
    ∧ ∀ td ∈ select_recent tools key limit excl,
        td.1 ∈ tools ∧ parse_iso_datetime (key td.1) = some td.2 ∧
          td.1.slug ∉ excl := by
  have heq := select_recent_eq_sorted_take tools key limit excl hlim
  refine ⟨heq, ?_, ?_, ?_⟩
  · rw [heq, List.length_take]
    exact min_le_left _ _
  · rw [heq]
    exact List.Pairwise.sublist (List.take_sublist _ _)
      (List.sorted_insertionSort descByDate _)
  · intro td htd
    exact ⟨(select_recent_mem_base tools key limit excl td htd).1,
      (select_recent_mem_base tools key limit excl td htd).2,
      select_recent_not_excluded tools key limit excl td htd⟩

/-- Witness for C1 at a concrete input. -/
theorem select_recent_spec_witness :
    0 < 5 ∧
      (select_recent [toolA] (fun t => t.created) 5 [] =
          (List.insertionSort descByDate (([toolA] : List Tool).filterMap (fun t =>
            if t.slug ∈ ([] : List (Option String)) then none
            else (parse_iso_datetime ((fun t => t.created) t)).map
              (fun d => (t, d))))).take 5
        ∧ (select_recent [toolA] (fun t => t.created) 5 []).length ≤ 5
        ∧ (select_recent [toolA] (fun t => t.created) 5 []).Pairwise descByDate
        ∧ ∀ td ∈ select_recent [toolA] (fun t => t.created) 5 [],
            td.1 ∈ [toolA] ∧
              parse_iso_datetime ((fun t => t.created) td.1) = some td.2 ∧
              td.1.slug ∉ ([] : List (Option String))) :=
  ⟨Nat.succ_pos 4,
    select_recent_spec [toolA] (fun t => t.created) 5 [] (Nat.succ_pos 4)⟩

/-- C7: a slug selected as "recently added" never also appears among the
"recently updated" selection, because `build_index` passes the added slugs as
the exclusion set of the second `_select_recent` call. -/
theorem added_updated_disjoint (tools : List Tool) (u a : Tool × DateTime)
    (hu : u ∈ recently_updated_of tools) (ha : a ∈ recently_added_of tools) :
    u.1.slug ≠ a.1.slug := by
  intro heq
  have hnot : u.1.slug ∉ added_slugs_of tools :=
    select_recent_not_excluded (tools.filter has_distinct_update)
      (fun t => t.updated) 5 (added_slugs_of tools) u hu
  apply hnot
  rw [heq]
  exact List.mem_map_of_mem (fun td => td.1.slug) ha

/-- Witness for C7 at a concrete input. -/
theorem added_updated_disjoint_witness :
    ((toolU, dtU) ∈ recently_updated_of [toolA, toolU]
        ∧ (toolA, dtA) ∈ recently_added_of [toolA, toolU])
    ∧ (toolU, dtU).1.slug ≠ (toolA, dtA).1.slug :=
  ⟨⟨by decide, by decide⟩,
    added_updated_disjoint [toolA, toolU] (toolU, dtU) (toolA, dtA)
      (by decide) (by decide)⟩

/-- C6: if `updated` parses no later than a parsed `created`, the tool is not
classified as distinctly updated and never appears in the "recently updated"
selection; if `updated` parses and `created` is missing or unparseable, the
tool is classified as distinctly updated. -/
theorem has_distinct_update_spec (t : Tool) (u : DateTime)
    (hu : parse_iso_datetime t.updated = some u) :
    (∀ c : DateTime, parse_iso_datetime t.created = some c →
        dtKey u ≤ dtKey c →
        has_distinct_update t = false ∧
        ∀ (tools : List Tool) (d : DateTime),
          (t, d) ∉ recently_updated_of tools)
    ∧ (parse_iso_datetime t.created = none → has_distinct_update t = true) := by
  constructor
  · intro c hc hle
    have hnlt : ¬ (dtKey c < dtKey u) := not_lt.mpr hle
    have hfalse : has_distinct_update t = false := by
      simp [has_distinct_update, hu, hc, hnlt]
    refine ⟨hfalse, ?_⟩
    intro tools d hmem
    have hbase := (select_recent_mem_base (tools.filter has_distinct_update)
      (fun t => t.updated) 5 (added_slugs_of tools) (t, d) hmem).1
    have htrue := (List.mem_filter.mp hbase).2
    rw [hfalse] at htrue
    exact Bool.noConfusion htrue
  · intro hc
    simp [has_distinct_update, hu, hc]

/-- Witness for C6 at concrete inputs (equal timestamps, and a missing
`created`). -/
theorem has_distinct_update_spec_witness :
    parse_iso_datetime toolE.updated = some dtJ ∧
      parse_iso_datetime toolE.created = some dtJ ∧ dtKey dtJ ≤ dtKey dtJ ∧
      has_distinct_update toolE = false ∧
      parse_iso_datetime toolU.updated = some dtU ∧
      parse_iso_datetime toolU.created = none ∧
      has_distinct_update toolU = true :=
  ⟨by decide, by decide, le_refl _,
    ((has_distinct_update_spec toolE dtJ (by decide)).1 dtJ (by decide)
      (le_refl _)).1,
    by decide, by decide,
    (has_distinct_update_spec toolU dtU (by decide)).2 (by decide)⟩

/-- The ordinal-suffix rule as the spec words it: 11-20 (modulo 100) always
get "th", otherwise the suffix follows the last digit. -/
def ordinal_suffix_spec (v : Nat) : String :=
  if 11 ≤ v % 100 ∧ v % 100 ≤ 20 then "th"
  else if v % 10 = 1 then "st"
  else if v % 10 = 2 then "nd"
  else if v % 10 = 3 then "rd"
  else "th"

theorem ordinal_sfx_cases : ∀ r : Nat, r < 100 →
    (if 10 ≤ r && r ≤ 20 then "th"
      else match r % 10 with
        | 1 => "st"
        | 2 => "nd"
        | 3 => "rd"
        | _ => "th")
    = (if 11 ≤ r ∧ r ≤ 20 then "th"
      else if r % 10 = 1 then "st"
      else if r % 10 = 2 then "nd"
      else if r % 10 = 3 then "rd"
      else "th") := by
  decide

/-- C9: `_ordinal` implements exactly the spec's suffix rule (the code's
10-20 band agrees with the spec's 11-20 band because 10 ends in the digit 0,
which also yields "th"), and the six quoted examples hold. -/
theorem ordinal_spec :
    (∀ v : Nat, 0 < v → ordinal v = Nat.repr v ++ ordinal_suffix_spec v)
    ∧ ordinal 1 = "1st" ∧ ordinal 2 = "2nd" ∧ ordinal 3 = "3rd"
    ∧ ordinal 11 = "11th" ∧ ordinal 21 = "21st" ∧ ordinal 22 = "22nd" := by
  refine ⟨?_, by decide, by decide, by decide, by decide, by decide, by decide⟩
  intro v _
  have h10 : v % 10 = v % 100 % 10 := (Nat.mod_mod_of_dvd v (by norm_num)).symm
  have h100 : v % 100 < 100 := Nat.mod_lt v (by norm_num)
  simp only [ordinal, ordinal_suffix_spec]
  rw [h10]
  exact congrArg (fun s => Nat.repr v ++ s) (ordinal_sfx_cases (v % 100) h100)

/-- Witness for C9 at a concrete positive day value. -/
theorem ordinal_spec_witness :
    0 < 23 ∧ ordinal 23 = Nat.repr 23 ++ ordinal_suffix_spec 23 :=
  ⟨Nat.succ_pos 22, ordinal_spec.1 23 (Nat.succ_pos 22)⟩

theorem le_foldl_maxStr (ds : List String) (d : String) :
    sLe d (ds.foldl maxStr d) ∧ ∀ x ∈ ds, sLe x (ds.foldl maxStr d) := by
  induction ds generalizing d with
  | nil => exact ⟨sLe_refl d, by simp⟩
  | cons e ds ih =>
    rcases ih (maxStr d e) with ⟨ha, hb⟩
    refine ⟨sLe_trans (sLe_maxStr_left d e) ha, ?_⟩
    intro x hx
    rcases List.mem_cons.mp hx with rfl | hx'
    · exact sLe_trans (sLe_maxStr_right d x) ha
    · exact hb x hx'

theorem foldl_maxStr_lt (ds : List String) (d : String) :
    ∀ e : String, sLt e d → (∀ x ∈ ds, sLt x d) →
      sLt (ds.foldl maxStr e) d := by
  induction ds with
  | nil => intro e he _; exact he
  | cons f ds ih =>
    intro e he hall
    exact ih (maxStr e f) (maxStr_sLt he (hall f (List.mem_cons_self _ _)))
      (fun x hx => hall x (List.mem_cons_of_mem f hx))

theorem commit_le_most_recent {pd : PageData} {c : CommitRec}
    (hc : c ∈ pd.commits) : sLe (commit_date c) (get_most_recent_date pd) := by
  unfold get_most_recent_date
  cases hcs : pd.commits with
  | nil => rw [hcs] at hc; cases hc
  | cons c0 rest =>
    rw [hcs] at hc
    simp only [List.isEmpty_cons, List.map_cons, max_of_dates]
    rw [if_neg (by simp)]
    rcases List.mem_cons.mp hc with rfl | hc'
    · exact (le_foldl_maxStr (rest.map commit_date) (commit_date c)).1
    · exact (le_foldl_maxStr (rest.map commit_date) (commit_date c0)).2
        (commit_date c) (List.mem_map_of_mem commit_date hc')

theorem most_recent_lt {pd : PageData} {d : String} (hne : pd.commits ≠ [])
    (hall : ∀ c ∈ pd.commits, sLt (commit_date c) d) :
    sLt (get_most_recent_date pd) d := by
  unfold get_most_recent_date
  cases hcs : pd.commits with
  | nil => exact absurd hcs hne
  | cons c0 rest =>
    simp only [List.isEmpty_cons, List.map_cons, max_of_dates]
    rw [if_neg (by simp)]
    refine foldl_maxStr_lt (rest.map commit_date) d (commit_date c0)
      (hall c0 (by rw [hcs]; exact List.mem_cons_self _ _)) ?_
    intro x hx
    rcases List.mem_map.mp hx with ⟨c', hc', rfl⟩
    exact hall c' (by rw [hcs]; exact List.mem_cons_of_mem c0 hc')

/-- Fixture: a page with no commits. -/
def pageEmptyP : PageData := ⟨[]⟩

/-- Fixture: a page with one commit carrying no date key. -/
def pageUndatedP : PageData := ⟨[⟨none, none, none⟩]⟩

/-- C4 counterexample: a page with one undated commit also receives the
sentinel date via `commit.get("date", sentinel)`, ties with the empty page,
and the stable sort keeps insertion order — so the empty-commit page is
listed *first*, not last, refuting "empty commit lists sort last"; with the
roles A := "b" (whose single commit is vacuously later than every commit of
the empty page) and B := "a", it also refutes the claim's 2-page property. -/
theorem colophon_empty_last_cex :
    colophon_page_order [("a", pageEmptyP), ("b", pageUndatedP)] = ["a", "b"] ∧
    pageEmptyP.commits = [] ∧ pageUndatedP.commits ≠ [] := by
  decide

/-- C4 (amended: pages are sorted descending by maximum commit date where
empty commit lists and missing commit dates are assigned the sentinel
`0000-00-00T00:00:00`, ties broken by input order; the 2-page ordering
guarantee needs page B to have at least one commit and some commit of page A
to have a date string strictly above every commit date of page B). -/
theorem colophon_order_spec :
    (∀ pages : List (String × PageData), (sorted_pages pages).Pairwise pageDesc)
    ∧ (∀ pd : PageData, pd.commits = [] → get_most_recent_date pd = sentinel_date)
    ∧ (∀ (nA : String) (pA : PageData) (nB : String) (pB : PageData),
        pB.commits ≠ [] →
        (∃ c ∈ pA.commits, ∀ c2 ∈ pB.commits,
          sLt (commit_date c2) (commit_date c)) →
        colophon_page_order [(nA, pA), (nB, pB)] = [nA, nB] ∧
        colophon_page_order [(nB, pB), (nA, pA)] = [nA, nB]) := by
  refine ⟨fun pages => List.sorted_insertionSort pageDesc pages, ?_, ?_⟩
  · intro pd h
    simp [get_most_recent_date, h]
  · intro nA pA nB pB hBne hex
    rcases hex with ⟨c, hc, hall⟩
    have hlt : sLt (get_most_recent_date pB) (get_most_recent_date pA) :=
      sLt_of_sLt_of_sLe (most_recent_lt hBne hall) (commit_le_most_recent hc)
    have hAB : pageDesc (nA, pA) (nB, pB) := sLt_sLe hlt
    have hnBA : ¬ pageDesc (nB, pB) (nA, pA) := sLt_iff_not_sLe.mp hlt
    constructor
    · simp [colophon_page_order, sorted_pages, List.insertionSort,
        List.orderedInsert, hAB]
    · simp [colophon_page_order, sorted_pages, List.insertionSort,
        List.orderedInsert, hnBA]

/-- Fixture: a page whose only commit is dated June 2024. -/
def pageLateP : PageData := ⟨[⟨none, some "2024-06-01T00:00:00", none⟩]⟩

/-- Fixture: a page whose only commit is dated January 2024. -/
def pageEarlyP : PageData := ⟨[⟨none, some "2024-01-01T00:00:00", none⟩]⟩

/-- Witness for C4 at a concrete 2-page document. -/
theorem colophon_order_spec_witness :
    (pageEarlyP.commits ≠ [] ∧
      ∃ c ∈ pageLateP.commits, ∀ c2 ∈ pageEarlyP.commits,
        sLt (commit_date c2) (commit_date c)) ∧
    colophon_page_order [("late", pageLateP), ("early", pageEarlyP)] =
        ["late", "early"] ∧
    colophon_page_order [("early", pageEarlyP), ("late", pageLateP)] =
        ["late", "early"] :=
  ⟨⟨by decide, by decide⟩,
    colophon_order_spec.2.2 "late" pageLateP "early" pageEarlyP
      (by decide) (by decide)⟩

/-- A README body containing all four splice markers. -/
def readme0 : String :=
  "<!-- recently starts --><!-- recently stops --><!-- tools index starts --><!-- tools index stops -->"

set_option maxRecDepth 100000 in
/-- C5 counterexample: with `tools.json` missing the index build does *not*
abort — `_load_tools` silently substitutes the empty list and the build
succeeds, producing output. -/
theorem missing_tools_json_cex :
    (build_index id (some readme0) none).isOk = true := by
  decide

/-- C5 (amended: a missing `README.md` aborts the index build and a missing
commit-history JSON aborts the colophon build, each with its descriptive
diagnostic and no output; but a missing `tools.json` does not abort — it is
treated exactly like an empty tool list). -/
theorem missing_input_spec :
    (∀ (mdConvert : String → String) (tools_json : Option (List Tool)),
        build_index mdConvert none tools_json =
          Except.error "README.md not found")
    ∧ (∀ (mdConvert : String → String) (docsFiles : String → Option String),
        build_colophon mdConvert docsFiles none =
          Except.error
            "Error: gathered_links.json not found. Run gather_links.py first.")
    ∧ (∀ (mdConvert : String → String) (readme : Option String),
        build_index mdConvert readme none =
          build_index mdConvert readme (some [])) := by
  refine ⟨fun _ _ => rfl, fun _ _ => rfl, fun mdc readme => ?_⟩
  cases readme with
  | none => rfl
  | some s => rfl

/-- The Tool Index sort key as the claim words it: fall back to the slug only
when the title is *missing*. -/
def toolSortKeySpecMissing (t : Tool) : String :=
  caseFold (match t.title with
    | some s => s
    | none =>
      match t.slug with
      | some s2 => s2
      | none => "")

def titleAscSpecMissing (a b : Tool) : Prop :=
  sLe (toolSortKeySpecMissing a) (toolSortKeySpecMissing b)

instance : DecidableRel titleAscSpecMissing :=
  fun a b =>
    inferInstanceAs
      (Decidable (sLe (toolSortKeySpecMissing a) (toolSortKeySpecMissing b)))

/-- Fixture: present but empty title, late slug. -/
def toolT1 : Tool := ⟨some "zz", some "", none, none, none, none⟩

/-- Fixture: nonempty title "a". -/
def toolT2 : Tool := ⟨some "b", some "a", none, none, none, none⟩

/-- C10 counterexample: a present-but-empty title falls back to the slug in
the code (Python truthiness: `tool.get("title") or ...`), but under the
claim's reading — fall back only when the title is missing — the empty title
would sort first.  The two orders differ on this input. -/
theorem tools_index_title_cex :
    sorted_tools [toolT1, toolT2] = [toolT2, toolT1] ∧
    List.insertionSort titleAscSpecMissing
        ([toolT1, toolT2].filter (fun t => t.slug != some "index")) =
      [toolT1, toolT2] ∧
    toolT1 ≠ toolT2 := by
  decide

/-- C10 (amended: the fallback applies when the title is missing *or empty*
— Python truthiness — and falls back to `""` when the slug is also falsy).
The directory holds exactly the tools whose slug is not `"index"`, sorted
ascending by the casefolded key, with a placeholder item when none remain. -/
theorem tools_index_spec :
    (∀ tools : List Tool,
        (sorted_tools tools).Perm
          (tools.filter (fun t => t.slug != some "index")))
    ∧ (∀ tools : List Tool, (sorted_tools tools).Pairwise titleAsc)
    ∧ (∀ tools : List Tool,
        tools.filter (fun t => t.slug != some "index") = [] →
        tools_index_list_content tools =
          "      <li class=\"tools-directory-empty\">No tools available.</li>") := by
  refine ⟨fun tools => List.perm_insertionSort titleAsc _,
    fun tools => List.sorted_insertionSort titleAsc _, ?_⟩
  intro tools h
  unfold tools_index_list_content sorted_tools
  rw [h]
  simp [List.insertionSort]

/-- Fixture: the tool whose slug is `"index"`. -/
def toolIdx : Tool := ⟨some "index", none, none, none, none, none⟩

/-- Witness for C10 at a concrete input with an empty directory. -/
theorem tools_index_spec_witness :
    ([toolIdx].filter (fun t => t.slug != some "index") = []) ∧
    tools_index_list_content [toolIdx] =
      "      <li class=\"tools-directory-empty\">No tools available.</li>" :=
  ⟨by decide, tools_index_spec.2.2 [toolIdx] (by decide)⟩

theorem firstOccur_le_length {pat s : List Char} {i : Nat}
    (h : firstOccurP pat s i) : i + pat.length ≤ s.length := by
  rcases eq_or_ne pat ([] : List Char) with rfl | hne
  · have hi0 : i = 0 := by
      by_contra h0
      exact h.2.2 0 (Nat.zero_le 0) (Nat.pos_of_ne_zero h0) rfl
    subst hi0
    simp
  · exact length_le_of_matchesAtP h.2.1 hne

/-- What `_replace_between_markers` returns on the success path: the body up
to the end of the first start-marker occurrence at `i`, a newline, the
replacement, a newline, and the body from `j` on, where `j` is the first
end-marker occurrence at or after `i`. -/
theorem replace_between_markers_ok (body sm em repl : String) (i j : Nat)
    (hi : firstOccurP sm.data body.data i)
    (hj : firstOccurFromP em.data body.data i j)
    (hij : i < j) :
    replace_between_markers body sm em repl =
      Except.ok (strTake body (i + sm.length) ++ "\n" ++ repl ++ "\n"
        ++ strDrop body j) := by
  have h1 : strFindFrom body sm 0 = some i := strFindFrom_eq_some.mpr hi
  have h2 : strFindFrom body em i = some j := strFindFrom_eq_some.mpr hj
  have hocc1 : occursIn sm body = true := occursIn_iff.mpr ⟨i, hi.2.1⟩
  have hocc2 : occursIn em body = true := occursIn_iff.mpr ⟨j, hj.2.1⟩
  simp only [replace_between_markers, hocc1, hocc2, Bool.and_self, if_true,
    h1, h2]
  rw [if_neg (by omega : ¬ j ≤ i)]

/-- C2 counterexample: with `body = "aba c b"`, start marker `"ab"`, end
marker `"b"` and replacement `"X"`, the claim predicts
`body[:2] + "X" + body[6:] = "abXb"` (splicing up to the first end-marker
occurrence *after the end* of the start marker, with the bare replacement).
The code instead searches for the end marker from the *start* index 0,
finds the `"b"` inside `"ab"` at index 1, and pads with newlines, returning
`"ab\nX\nba c b"`. -/
theorem replace_between_markers_cex :
    replace_between_markers "aba c b" "ab" "b" "X" =
      Except.ok "ab\nX\nba c b" ∧
    ("ab\nX\nba c b" : String) ≠ "abXb" :=
  ⟨rfl, by decide⟩

/-- C2 (amended: the end position is the first occurrence of the end marker
at or after the *start* index of the first start-marker occurrence — which
may fall inside the start marker, duplicating text — and the replacement is
surrounded by newline characters; both markers' prefixes/suffixes outside
the replaced region are preserved verbatim as `body[:i+len(sm)]` and
`body[j:]`). -/
theorem replace_between_markers_spec (body sm em repl : String) (i j : Nat)
    (hi : firstOccurP sm.data body.data i)
    (hj : firstOccurFromP em.data body.data i j)
    (hij : i < j) :
    replace_between_markers body sm em repl =
      Except.ok (strTake body (i + sm.length) ++ "\n" ++ repl ++ "\n"
        ++ strDrop body j) :=
  replace_between_markers_ok body sm em repl i j hi hj hij

/-- Witness for C2 at a concrete input. -/
theorem replace_between_markers_spec_witness :
    (firstOccurP "s".data "s X e".data 0 ∧
      firstOccurFromP "e".data "s X e".data 0 4 ∧ 0 < 4) ∧
    replace_between_markers "s X e" "s" "e" "R" =
      Except.ok (strTake "s X e" (0 + "s".length) ++ "\n" ++ "R" ++ "\n"
        ++ strDrop "s X e" 4) :=
  have hmin : ∀ p : Nat, p < 4 → ¬ matchesAtP "e".data "s X e".data p := by
    decide
  have hs : firstOccurP "s".data "s X e".data 0 :=
    ⟨Nat.le_refl 0, by decide, fun p _ hp2 => absurd hp2 (Nat.not_lt_zero p)⟩
  have he : firstOccurFromP "e".data "s X e".data 0 4 :=
    ⟨Nat.zero_le 4, by decide, fun p _ hp2 => hmin p hp2⟩
  ⟨⟨hs, he, by decide⟩,
    replace_between_markers_spec "s X e" "s" "e" "R" 0 4 hs he (by decide)⟩

theorem strFindFrom_zero_isSome {body pat : String}
    (h : occursIn pat body = true) : ∃ i, strFindFrom body pat 0 = some i := by
  rcases occursIn_iff.mp h with ⟨i, hi⟩
  cases hf : strFindFrom body pat 0 with
  | some k => exact ⟨k, rfl⟩
  | none => exact absurd hi (strFindFrom_eq_none.mp hf i (Nat.zero_le i))

/-- C3 counterexample: with body `"abca"`, start marker `"ab"` (first
occurrence at index 0) and end marker `"a"`, an end-marker occurrence starts
at index 3 — at-or-after the start-marker occurrence — so the claimed iff
predicts no error; but `find("a", 0)` returns 0, the `start_idx >= end_idx`
check fires, and the function raises. -/
theorem replace_markers_error_cex :
    replace_between_markers "abca" "ab" "a" "X" =
      Except.error "Invalid marker positions." ∧
    occursIn "ab" "abca" = true ∧ occursIn "a" "abca" = true ∧
    firstOccurP "ab".data "abca".data 0 ∧ matchesAtP "a".data "abca".data 3 :=
  ⟨rfl, rfl, rfl,
    ⟨Nat.le_refl 0, by decide, fun p _ hp => absurd hp (Nat.not_lt_zero p)⟩,
    by decide⟩

/-- C3 (amended: `_replace_between_markers` raises iff either marker is
absent from the input, or the end marker occurs exactly at the start index
of the first start-marker occurrence, or no end-marker occurrence starts at
or after that index.  On an error only `Except.error` is produced — no
spliced output.) -/
theorem replace_between_markers_error_iff (body sm em repl : String) :
    (∃ msg, replace_between_markers body sm em repl = Except.error msg) ↔
      occursIn sm body = false ∨ occursIn em body = false ∨
        ∃ i, firstOccurP sm.data body.data i ∧
          (matchesAtP em.data body.data i ∨
            ∀ j, i ≤ j → ¬ matchesAtP em.data body.data j) := by
  constructor
  · rintro ⟨msg, hmsg⟩
    by_cases h1 : occursIn sm body = true
    · by_cases h2 : occursIn em body = true
      · right; right
        rcases strFindFrom_zero_isSome h1 with ⟨i, hfi⟩
        have hi : firstOccurP sm.data body.data i := strFindFrom_eq_some.mp hfi
        refine ⟨i, hi, ?_⟩
        cases hfj : strFindFrom body em i with
        | none =>
          right
          exact fun j hj => strFindFrom_eq_none.mp hfj j hj
        | some j =>
          left
          have hj := strFindFrom_eq_some.mp hfj
          by_cases hji : j ≤ i
          · have hj_eq : j = i := le_antisymm hji hj.1
            subst hj_eq
            exact hj.2.1
          · exfalso
            simp only [replace_between_markers, h1, h2, Bool.and_self,
              if_true, hfi, hfj] at hmsg
            rw [if_neg hji] at hmsg
            exact Except.noConfusion hmsg
      · right; left; exact Bool.of_not_eq_true h2
    · left; exact Bool.of_not_eq_true h1
  · rintro (h | h | ⟨i, hi, hcase⟩)
    · exact ⟨"Markers \x27" ++ sm ++ "\x27 or \x27" ++ em ++ "\x27 not found.",
        by simp [replace_between_markers, h]⟩
    · exact ⟨"Markers \x27" ++ sm ++ "\x27 or \x27" ++ em ++ "\x27 not found.",
        by simp [replace_between_markers, h]⟩
    · have hocc1 : occursIn sm body = true := occursIn_iff.mpr ⟨i, hi.2.1⟩
      have h1 : strFindFrom body sm 0 = some i := strFindFrom_eq_some.mpr hi
      by_cases h2 : occursIn em body = true
      · rcases hcase with hmi | hnone
        · have hfj : strFindFrom body em i = some i :=
            strFindFrom_eq_some.mpr
              ⟨Nat.le_refl i, hmi, fun p hp1 hp2 => absurd hp1 (not_le.mpr hp2)⟩
          refine ⟨"Invalid marker positions.", ?_⟩
          simp only [replace_between_markers, hocc1, h2, Bool.and_self,
            if_true, h1, hfj]
          rw [if_pos (Nat.le_refl i)]
        · have hfj : strFindFrom body em i = none :=
            strFindFrom_eq_none.mpr (fun j hj => hnone j hj)
          refine ⟨"Invalid marker positions.", ?_⟩
          simp only [replace_between_markers, hocc1, h2, Bool.and_self,
            if_true, h1, hfj]
      · exact ⟨"Markers \x27" ++ sm ++ "\x27 or \x27" ++ em ++ "\x27 not found.",
          by simp [replace_between_markers, Bool.of_not_eq_true h2]⟩

/-- C8 counterexample: splicing is *not* idempotent when the replacement
itself contains the end marker.  With body `"sxe"`, markers `"s"`/`"e"` (both
occur, in order) and replacement `"e"`, the first splice yields `"s\ne\ne"`,
but splicing that output again yields `"s\ne\ne\ne"`. -/
theorem splice_idempotent_cex :
    replace_between_markers "sxe" "s" "e" "e" = Except.ok "s\ne\ne" ∧
    replace_between_markers "s\ne\ne" "s" "e" "e" = Except.ok "s\ne\ne\ne" ∧
    ("s\ne\ne\ne" : String) ≠ "s\ne\ne" :=
  ⟨rfl, rfl, by decide⟩

theorem take_eq_of_shared_head {L : List Char} {B : List Char} {p n len : Nat}
    (hPlen : (B.take n).length = n) (hpn : p + len ≤ n) :
    ((B.take n ++ L).drop p).take len = (B.drop p).take len := by
  rw [List.drop_append_of_le_length (by omega : p ≤ (B.take n).length),
    List.take_append_of_le_length
      (by rw [List.length_drop, hPlen]; omega : len ≤ ((B.take n).drop p).length),
    List.drop_take, List.take_take,
    min_eq_left (by omega : len ≤ n - p)]

/-- C8 (amended: splicing is idempotent provided the end marker does not
occur in the spliced output anywhere in the region `[i, i+len(sm)+len(repl)+2)`
covering the retained start-marker prefix and the newline-padded replacement
— in particular the replacement must not contain or recreate the end marker.
Without that proviso the claim fails, see the counterexample.) -/
theorem splice_idempotent (body sm em repl : String) (i j : Nat)
    (hi : firstOccurP sm.data body.data i)
    (hj : firstOccurFromP em.data body.data i j)
    (hij : i < j)
    (hsafe : ∀ p, p < i + sm.length + repl.length + 2 → i ≤ p →
      ¬ matchesAtP em.data
        ((strTake body (i + sm.length) ++ "\n" ++ repl ++ "\n"
          ++ strDrop body j).data) p) :
    replace_between_markers body sm em repl =
      Except.ok (strTake body (i + sm.length) ++ "\n" ++ repl ++ "\n"
        ++ strDrop body j) ∧
    replace_between_markers
        (strTake body (i + sm.length) ++ "\n" ++ repl ++ "\n"
          ++ strDrop body j) sm em repl =
      Except.ok (strTake body (i + sm.length) ++ "\n" ++ repl ++ "\n"
        ++ strDrop body j) := by
  have hLsm : sm.length = sm.data.length := rfl
  have hLr : repl.length = repl.data.length := rfl
  have hiS : i + sm.data.length ≤ body.data.length := firstOccur_le_length hi
  have hPlen : (body.data.take (i + sm.length)).length = i + sm.length := by
    rw [List.length_take]
    omega
  have hnl : ("\n" : String).data = ['\n'] := rfl
  have hYdata : (strTake body (i + sm.length) ++ "\n" ++ repl ++ "\n"
      ++ strDrop body j).data
      = body.data.take (i + sm.length)
        ++ '\n' :: (repl.data ++ '\n' :: body.data.drop j) := by
    simp [strTake, strDrop, String.data_append, hnl]
  have hassoc : body.data.take (i + sm.length)
      ++ '\n' :: (repl.data ++ '\n' :: body.data.drop j)
      = (body.data.take (i + sm.length) ++ '\n' :: (repl.data ++ ['\n']))
        ++ body.data.drop j := by
    simp
  have hqlen : (body.data.take (i + sm.length)
      ++ '\n' :: (repl.data ++ ['\n'])).length
      = i + sm.length + repl.length + 2 := by
    simp only [List.length_append, List.length_cons, hPlen,
      List.length_nil]
    omega
  have hdropq : ((strTake body (i + sm.length) ++ "\n" ++ repl ++ "\n"
      ++ strDrop body j).data).drop (i + sm.length + repl.length + 2)
      = body.data.drop j := by
    rw [hYdata, hassoc]
    exact List.drop_left' hqlen
  have htakei : ((strTake body (i + sm.length) ++ "\n" ++ repl ++ "\n"
      ++ strDrop body j).data).take (i + sm.length)
      = body.data.take (i + sm.length) := by
    rw [hYdata]
    exact List.take_left' hPlen
  -- the start marker still first occurs at `i` in the spliced output
  have hmY : matchesAtP sm.data
      ((strTake body (i + sm.length) ++ "\n" ++ repl ++ "\n"
        ++ strDrop body j).data) i := by
    rw [matchesAtP, beginsWith_iff_take, hYdata]
    rw [take_eq_of_shared_head hPlen (by omega)]
    exact beginsWith_iff_take.mp hi.2.1
  have hminY : ∀ p, p < i → ¬ matchesAtP sm.data
      ((strTake body (i + sm.length) ++ "\n" ++ repl ++ "\n"
        ++ strDrop body j).data) p := by
    intro p hp hm
    apply hi.2.2 p (Nat.zero_le p) hp
    rw [matchesAtP, beginsWith_iff_take] at hm ⊢
    rw [hYdata, take_eq_of_shared_head hPlen (by omega)] at hm
    exact hm
  have hiY : firstOccurP sm.data
      ((strTake body (i + sm.length) ++ "\n" ++ repl ++ "\n"
        ++ strDrop body j).data) i :=
    ⟨Nat.zero_le i, hmY, fun p _ hp2 => hminY p hp2⟩
  have hmqY : matchesAtP em.data
      ((strTake body (i + sm.length) ++ "\n" ++ repl ++ "\n"
        ++ strDrop body j).data) (i + sm.length + repl.length + 2) := by
    rw [matchesAtP, hdropq]
    exact hj.2.1
  have hjY : firstOccurFromP em.data
      ((strTake body (i + sm.length) ++ "\n" ++ repl ++ "\n"
        ++ strDrop body j).data) i (i + sm.length + repl.length + 2) :=
    ⟨by omega, hmqY, fun p hp1 hp2 => hsafe p hp2 hp1⟩
  have hfirst := replace_between_markers_ok body sm em repl i j hi hj hij
  refine ⟨hfirst, ?_⟩
  have hsecond := replace_between_markers_ok
    (strTake body (i + sm.length) ++ "\n" ++ repl ++ "\n" ++ strDrop body j)
    sm em repl i (i + sm.length + repl.length + 2) hiY hjY (by omega)
  rw [hsecond]
  have e1 : strTake (strTake body (i + sm.length) ++ "\n" ++ repl ++ "\n"
      ++ strDrop body j) (i + sm.length) = strTake body (i + sm.length) :=
    congrArg String.mk htakei
  have e2 : strDrop (strTake body (i + sm.length) ++ "\n" ++ repl ++ "\n"
      ++ strDrop body j) (i + sm.length + repl.length + 2) = strDrop body j :=
    congrArg String.mk hdropq
  rw [e1, e2]

/-- Witness for C8 at a concrete input whose replacement is free of the end
marker. -/
theorem splice_idempotent_witness :
    (firstOccurP "s".data "sxe".data 0 ∧
      firstOccurFromP "e".data "sxe".data 0 2 ∧ 0 < 2 ∧
      ∀ p, p < 0 + "s".length + "R".length + 2 → 0 ≤ p →
        ¬ matchesAtP "e".data
          ((strTake "sxe" (0 + "s".length) ++ "\n" ++ "R" ++ "\n"
            ++ strDrop "sxe" 2).data) p) ∧
    (replace_between_markers "sxe" "s" "e" "R" =
        Except.ok (strTake "sxe" (0 + "s".length) ++ "\n" ++ "R" ++ "\n"
          ++ strDrop "sxe" 2) ∧
      replace_between_markers
          (strTake "sxe" (0 + "s".length) ++ "\n" ++ "R" ++ "\n"
            ++ strDrop "sxe" 2) "s" "e" "R" =
        Except.ok (strTake "sxe" (0 + "s".length) ++ "\n" ++ "R" ++ "\n"
          ++ strDrop "sxe" 2)) :=
  have hmin2 : ∀ p, p < 2 → ¬ matchesAtP "e".data "sxe".data p := by decide
  have hi : firstOccurP "s".data "sxe".data 0 :=
    ⟨Nat.le_refl 0, by decide, fun p _ hp => absurd hp (Nat.not_lt_zero p)⟩
  have hj : firstOccurFromP "e".data "sxe".data 0 2 :=
    ⟨Nat.zero_le 2, by decide, fun p _ hp2 => hmin2 p hp2⟩
  have hsafe : ∀ p, p < 0 + "s".length + "R".length + 2 → 0 ≤ p →
      ¬ matchesAtP "e".data
        ((strTake "sxe" (0 + "s".length) ++ "\n" ++ "R" ++ "\n"
          ++ strDrop "sxe" 2).data) p := by decide
  ⟨⟨hi, hj, by decide, hsafe⟩,
    splice_idempotent "sxe" "s" "e" "R" 0 2 hi hj (by decide) hsafe⟩
